import Mathlib

/-!
Shallow embedding of the bevy_mod_wanderlust character-controller crate.

The f32 arithmetic of the source is modelled over the real numbers.
Mathlib division is total with x / 0 = 0, while IEEE division by zero
produces an infinity or NaN; wherever a claim turns on division by zero
we state the vanishing of the denominator explicitly instead of relying
on the junk value.
-/

namespace Wanderlust

noncomputable section

/-- Spring parameters for a dampened harmonic oscillator, from src/spring.rs. -/
structure Spring where
  frequency : ℝ
  damp_ratio : ℝ

/-- The Default impl for Spring in src/spring.rs: frequency 1.0, damp_ratio 0.25. -/
def Spring.default : Spring where
  frequency := 1.0
  damp_ratio := 0.25

namespace Spring

/-- Spring::stiffness from src/spring.rs: mass * frequency * frequency. -/
def stiffness (s : Spring) (mass : ℝ) : ℝ :=
  mass * s.frequency * s.frequency

/-- Spring::critical_damping_point from src/spring.rs:
2.0 * (mass * self.stiffness(mass)).sqrt(). -/
def critical_damping_point (s : Spring) (mass : ℝ) : ℝ :=
  2.0 * Real.sqrt (mass * s.stiffness mass)

/-- Spring::damp_coefficient from src/spring.rs:
damp_ratio * critical_damping_point(mass). -/
def damp_coefficient (s : Spring) (mass : ℝ) : ℝ :=
  s.damp_ratio * s.critical_damping_point mass

/-- Spring::soft_constraint from src/spring.rs, line for line:
ks = stiffness, kc = damp_coefficient, gamma = 1/(kc + h*ks),
beta = (h*ks)/(kc + h*ks), bias = beta/h * displacement,
lambda = -(relative_velocity + bias)/(1/mass + gamma). -/
def soft_constraint (s : Spring) (mass displacement relative_velocity delta_time : ℝ) : ℝ :=
  let ks := s.stiffness mass
  let kc := s.damp_coefficient mass
  let gamma := 1.0 / (kc + delta_time * ks)
  let beta := (delta_time * ks) / (kc + delta_time * ks)
  let bias := beta / delta_time * displacement
  let lambda := -(relative_velocity + bias) / (1.0 / mass + gamma)
  lambda

end Spring

/-- The implicit one-step solve exactly as the specification states it, in
terms of an already-computed stiffness k and damping coefficient c:
gamma = 1/(c + h*k), beta = (h*k)/(c + h*k), bias = (beta/h)*x,
result = -(v + bias)/(1/m + gamma). -/
def specSoftConstraint (k c m x v h : ℝ) : ℝ :=
  let gamma := 1 / (c + h * k)
  let beta := (h * k) / (c + h * k)
  let bias := beta / h * x
  let lambda := -(v + bias) / (1 / m + gamma)
  lambda

/-- Stiffness as the specification words it: k = m * f^2. -/
def specStiffness (m f : ℝ) : ℝ := m * f ^ 2

/-- Critical damping as the specification words it: c_crit = 2 * sqrt (m * k). -/
def specCriticalDamping (m k : ℝ) : ℝ := 2 * Real.sqrt (m * k)

/-- Damping coefficient as the specification words it: c = zeta * c_crit. -/
def specDampCoefficient (zeta ccrit : ℝ) : ℝ := zeta * ccrit

/-- Claim C1: for every mass m, displacement x, relative velocity v and
timestep h, Spring::soft_constraint returns exactly the implicit one-step
solve of the spec, with k = stiffness(m) and c = damp_coefficient(m). -/
theorem soft_constraint_matches_spec (s : Spring) (m x v h : ℝ) :
    s.soft_constraint m x v h =
      specSoftConstraint (s.stiffness m) (s.damp_coefficient m) m x v h := by
  simp only [Spring.soft_constraint, specSoftConstraint]
  norm_num

/-- Claim C5: for every mass m >= 0, the three coefficient functions of
Spring agree with the derivation of the spec: k = m * f^2,
c_crit = 2 * sqrt (m * k), c = zeta * c_crit. -/
theorem spring_coefficients_match_spec (s : Spring) (m : ℝ) (_hm : 0 ≤ m) :
    s.stiffness m = specStiffness m s.frequency ∧
    s.critical_damping_point m = specCriticalDamping m (specStiffness m s.frequency) ∧
    s.damp_coefficient m = specDampCoefficient s.damp_ratio (s.critical_damping_point m) := by
  refine ⟨by simp [Spring.stiffness, specStiffness]; ring, ?_, ?_⟩
  · simp only [Spring.critical_damping_point, specCriticalDamping, Spring.stiffness,
      specStiffness]
    norm_num
    ring_nf
  · simp [Spring.damp_coefficient, specDampCoefficient]

/-- Witness for C5 at the concrete mass 4. -/
theorem spring_coefficients_match_spec_witness :
    (0 : ℝ) ≤ 4 ∧
    (Spring.default.stiffness 4 = specStiffness 4 Spring.default.frequency ∧
      Spring.default.critical_damping_point 4 =
        specCriticalDamping 4 (specStiffness 4 Spring.default.frequency) ∧
      Spring.default.damp_coefficient 4 =
        specDampCoefficient Spring.default.damp_ratio
          (Spring.default.critical_damping_point 4)) :=
  ⟨by norm_num, spring_coefficients_match_spec Spring.default 4 (by norm_num)⟩

/-- Claim C2 (refuted on the code): at frequency 0 both the stiffness and
the damping coefficient vanish, so the divisor c + h*k used by
soft_constraint for gamma and beta is exactly 0 - the code divides by
zero instead of short-circuiting.  Moreover even under total division
(where x / 0 = 0) the returned value at mass 1 is -v, which is a nonzero
force whenever the relative velocity is nonzero, not the zero force the
spec requires. -/
theorem soft_constraint_zero_frequency_divides_by_zero (x v : ℝ) :
    ((⟨0, 1⟩ : Spring).damp_coefficient 1 + (1 / 60) * (⟨0, 1⟩ : Spring).stiffness 1 = 0) ∧
    (⟨0, 1⟩ : Spring).soft_constraint 1 x v (1 / 60) = -v := by
  constructor
  · simp [Spring.damp_coefficient, Spring.critical_damping_point, Spring.stiffness]
  · simp [Spring.soft_constraint, Spring.damp_coefficient, Spring.critical_damping_point,
      Spring.stiffness]
    norm_num

/-- One step of the explicit integration loop used by the soft_constraint
test harness in src/spring.rs: lambda = soft_constraint(mass, x, v, dt),
then velocity += lambda * dt / mass, then position += velocity * dt.
The state is the pair (position, velocity). -/
def integrate (s : Spring) (mass dt : ℝ) (p : ℝ × ℝ) : ℝ × ℝ :=
  let lambda := s.soft_constraint mass p.1 p.2 dt
  let velocity := p.2 + lambda * dt / mass
  (p.1 + velocity * dt, velocity)

/-- The displacement/velocity trajectory obtained by iterating the
soft-constraint step from initial displacement x0 and zero velocity. -/
def traj (s : Spring) (mass dt x0 : ℝ) : ℕ → ℝ × ℝ
  | 0 => (x0, 0)
  | n + 1 => integrate s mass dt (traj s mass dt x0 n)

/-- Claim C10: the default Spring has frequency 1 and damp_ratio 0.25,
which is under-damped (damp_ratio < 1); concretely, iterating the
default soft constraint (mass 1, dt 1) from displacement 1 overshoots:
the displacement starts positive and is negative after three steps. -/
theorem default_spring_underdamped :
    Spring.default.frequency = 1 ∧ Spring.default.damp_ratio = 0.25 ∧
    Spring.default.damp_ratio < 1 ∧
    0 < (traj Spring.default 1 1 1 0).1 ∧ (traj Spring.default 1 1 1 3).1 < 0 := by
  refine ⟨by norm_num [Spring.default], by norm_num [Spring.default],
    by norm_num [Spring.default], by norm_num [traj], ?_⟩
  norm_num [traj, integrate, Spring.soft_constraint, Spring.damp_coefficient,
    Spring.critical_damping_point, Spring.stiffness, Spring.default]

/-- The divisor c + h*k by which soft_constraint divides when computing
gamma and beta. -/
def softDen (s : Spring) (m h : ℝ) : ℝ :=
  s.damp_coefficient m + h * s.stiffness m

/-- Shorthand S = (c + h*k) + m, the denominator of the closed form of
one integration step. -/
def stepS (s : Spring) (m h : ℝ) : ℝ := softDen s m h + m

/-- Shorthand A = S - h*(c + h*k), the velocity multiplier of the closed
form of one integration step. -/
def stepA (s : Spring) (m h : ℝ) : ℝ := stepS s m h - h * softDen s m h

/-- Arithmetic core of the soft_constraint closed form, over abstract
stiffness k and damping c. -/
theorem softFormulaAux (k c m x v h : ℝ) (hm : 0 < m) (hh : h ≠ 0) (hD : 0 < c + h * k) :
    -(v + h * k / (c + h * k) / h * x) / (1.0 / m + 1.0 / (c + h * k)) =
      -(m * (v * (c + h * k) + k * x)) / (c + h * k + m) := by
  have h1 : c + h * k ≠ 0 := ne_of_gt hD
  have h2 : c + h * k + m ≠ 0 := by nlinarith
  have h3 : m ≠ 0 := ne_of_gt hm
  have h10 : (1.0 : ℝ) = 1 := by norm_num
  rw [h10]
  field_simp
  ring

/-- Closed form of soft_constraint when its divisors are nonzero:
lambda = -m*(v*(c + h*k) + k*x) / ((c + h*k) + m). -/
theorem soft_constraint_closed_form (s : Spring) (m x v h : ℝ)
    (hm : 0 < m) (hh : 0 < h) (hD : 0 < softDen s m h) :
    s.soft_constraint m x v h =
      -(m * (v * softDen s m h + s.stiffness m * x)) / stepS s m h := by
  have hD' : 0 < s.damp_coefficient m + h * s.stiffness m := hD
  have := softFormulaAux (s.stiffness m) (s.damp_coefficient m) m x v h hm (ne_of_gt hh) hD'
  simpa only [Spring.soft_constraint, softDen, stepS] using this

/-- Closed form of one integration step when the divisors are nonzero. -/
theorem integrate_closed_form (s : Spring) (m x v h : ℝ)
    (hm : 0 < m) (hh : 0 < h) (hD : 0 < softDen s m h) :
    integrate s m h (x, v) =
      ((stepS s m h * x - h ^ 2 * s.stiffness m * x + h * stepA s m h * v) / stepS s m h,
        (stepA s m h * v - h * s.stiffness m * x) / stepS s m h) := by
  have hD0 : 0 < softDen s m h := hD
  have hS : (0 : ℝ) < stepS s m h := by
    have : stepS s m h = softDen s m h + m := rfl
    rw [this]; linarith
  have hS' : stepS s m h ≠ 0 := ne_of_gt hS
  have hm' : m ≠ 0 := ne_of_gt hm
  have hlam := soft_constraint_closed_form s m x v h hm hh hD
  simp only [integrate, hlam, Prod.mk.injEq]
  constructor
  · simp only [stepA]
    field_simp
    ring
  · simp only [stepA]
    field_simp
    ring

/-- One invariant-preserving step of the discrete spring iteration, stated
over abstract stiffness k and damping c.  The invariant is: nonnegative
displacement, nonpositive velocity, and h*(-v) bounded by theta times the
displacement; it additionally yields that the displacement does not
increase. -/
theorem invariant_step (k c m h θ x v x2 v2 : ℝ)
    (hk : 0 < k) (hc : 0 < c) (hm : 0 < m) (hh : 0 < h)
    (hA : 0 ≤ c + h * k + m - h * (c + h * k))
    (hθ0 : 0 < θ) (_hθ1 : θ ≤ 1)
    (hcond : θ ^ 2 * (c + h * k + m - h * (c + h * k)) + h ^ 2 * k ≤ θ * h * c)
    (hx : 0 ≤ x) (hv : v ≤ 0) (huv : h * -v ≤ θ * x)
    (hx2 : x2 = ((c + h * k + m) * x - h ^ 2 * k * x
      + h * (c + h * k + m - h * (c + h * k)) * v) / (c + h * k + m))
    (hv2 : v2 = ((c + h * k + m - h * (c + h * k)) * v - h * k * x) / (c + h * k + m)) :
    v2 ≤ 0 ∧ 0 ≤ x2 ∧ x2 ≤ x ∧ h * -v2 ≤ θ * x2 := by
  have hS : (0 : ℝ) < c + h * k + m := by positivity
  have hS' : c + h * k + m ≠ 0 := ne_of_gt hS
  have hv2m : v2 * (c + h * k + m) = (c + h * k + m - h * (c + h * k)) * v - h * k * x := by
    rw [hv2]; field_simp
  have hx2m : x2 * (c + h * k + m) = (c + h * k + m) * x - h ^ 2 * k * x
      + h * (c + h * k + m - h * (c + h * k)) * v := by
    rw [hx2]; field_simp
  have hAv : (c + h * k + m - h * (c + h * k)) * v ≤ 0 :=
    mul_nonpos_of_nonneg_of_nonpos hA hv
  have hkx : 0 ≤ h * k * x := by positivity
  have h1 : v2 ≤ 0 := by nlinarith [hv2m, hAv, hkx, hS]
  have ex : x = x2 + h * -v2 := by
    have hcancel : (x2 - x - h * v2) * (c + h * k + m) = 0 := by
      linear_combination hx2m - h * hv2m
    have h0 : x2 - x - h * v2 = 0 := by
      rcases mul_eq_zero.mp hcancel with h0 | h0
      · exact h0
      · exact absurd h0 hS'
    linarith
  have e1 : h * -v2 * (c + h * k + m) =
      (c + h * k + m - h * (c + h * k)) * (h * -v) + h ^ 2 * k * x := by
    linear_combination (-h) * hv2m
  have e2 : (c + h * k + m - h * (c + h * k)) * (h * -v) ≤
      (c + h * k + m - h * (c + h * k)) * (θ * x) :=
    mul_le_mul_of_nonneg_left huv hA
  have e3 : h * -v2 * (c + h * k + m) ≤
      (θ * (c + h * k + m - h * (c + h * k)) + h ^ 2 * k) * x := by linarith [e1, e2]
  have e4 : (1 + θ) * (θ * (c + h * k + m - h * (c + h * k)) + h ^ 2 * k) ≤
      θ * (c + h * k + m) := by linarith [hcond]
  have e5a : (1 + θ) * (h * -v2 * (c + h * k + m)) ≤
      (1 + θ) * ((θ * (c + h * k + m - h * (c + h * k)) + h ^ 2 * k) * x) :=
    mul_le_mul_of_nonneg_left e3 (by linarith)
  have e5b : (1 + θ) * (θ * (c + h * k + m - h * (c + h * k)) + h ^ 2 * k) * x ≤
      θ * (c + h * k + m) * x :=
    mul_le_mul_of_nonneg_right e4 hx
  have e5 : (1 + θ) * (h * -v2) * (c + h * k + m) ≤ θ * x * (c + h * k + m) := by
    linarith [e5a, e5b]
  have key : (1 + θ) * (h * -v2) ≤ θ * x := (mul_le_mul_right hS).mp e5
  have keyx2 : (1 + θ) * (h * -v2) ≤ θ * (x2 + h * -v2) := by rw [← ex]; exact key
  have h4 : h * -v2 ≤ θ * x2 := by linarith [keyx2]
  have h2 : 0 ≤ x2 := by
    nlinarith [h4, hθ0, mul_nonneg hh.le (neg_nonneg.mpr h1)]
  have h3 : x2 ≤ x := by
    have hv2h : h * v2 ≤ 0 := mul_nonpos_of_nonneg_of_nonpos hh.le h1
    linarith [ex, hv2h]
  exact ⟨h1, h2, h3, h4⟩

/-- Monotone convergence for a nonnegative initial displacement: under
the discrete over-damping conditions the displacement sequence never
increases and never becomes negative.  The general, sign-symmetric
statement follows from this and the linearity of the iteration. -/
theorem iteration_monotone_of_nonneg (s : Spring) (m h x0 : ℝ)
    (hm : 0 < m) (hf : 0 < s.frequency) (hz : 1 ≤ s.damp_ratio) (hh : 0 < h)
    (hx0 : 0 ≤ x0)
    (H1 : h * s.damp_coefficient m ≤ 2 * stepA s m h)
    (H2 : 4 * stepA s m h * s.stiffness m ≤ s.damp_coefficient m ^ 2) :
    ∀ n, 0 ≤ (traj s m h x0 n).1 ∧ (traj s m h x0 (n + 1)).1 ≤ (traj s m h x0 n).1 := by
  have hk : 0 < s.stiffness m := by
    simp only [Spring.stiffness]; positivity
  have hsq : 0 < Real.sqrt (m * s.stiffness m) := Real.sqrt_pos.mpr (by positivity)
  have hzpos : 0 < s.damp_ratio := lt_of_lt_of_le one_pos hz
  have hcd : 0 < s.damp_coefficient m := by
    simp only [Spring.damp_coefficient, Spring.critical_damping_point]
    positivity
  have hD : 0 < softDen s m h := by
    have := mul_pos hh hk
    simp only [softDen]; linarith
  have hA : 0 < stepA s m h := by
    have := mul_pos hh hcd
    linarith
  have hArfl : stepA s m h = s.damp_coefficient m + h * s.stiffness m + m
      - h * (s.damp_coefficient m + h * s.stiffness m) := rfl
  set θ := h * s.damp_coefficient m / (2 * stepA s m h) with hθdef
  have hθ0 : 0 < θ := div_pos (mul_pos hh hcd) (by linarith)
  have hθ1 : θ ≤ 1 := by
    rw [hθdef]
    exact (div_le_one (by linarith)).mpr H1
  have hcond : θ ^ 2 * (s.damp_coefficient m + h * s.stiffness m + m
      - h * (s.damp_coefficient m + h * s.stiffness m)) + h ^ 2 * s.stiffness m ≤
      θ * h * s.damp_coefficient m := by
    rw [← hArfl, hθdef]
    have hA' : stepA s m h ≠ 0 := ne_of_gt hA
    have e1 : (h * s.damp_coefficient m / (2 * stepA s m h)) ^ 2 * stepA s m h
        = h ^ 2 * s.damp_coefficient m ^ 2 / (4 * stepA s m h) := by
      field_simp
      ring
    have e2 : h * s.damp_coefficient m / (2 * stepA s m h) * h * s.damp_coefficient m
        = h ^ 2 * s.damp_coefficient m ^ 2 / (2 * stepA s m h) := by
      field_simp
      ring
    rw [e1, e2]
    have e3 : h ^ 2 * s.damp_coefficient m ^ 2 / (2 * stepA s m h)
        - h ^ 2 * s.damp_coefficient m ^ 2 / (4 * stepA s m h)
        = h ^ 2 * s.damp_coefficient m ^ 2 / (4 * stepA s m h) := by
      field_simp
      ring
    have e4 : h ^ 2 * s.stiffness m ≤ h ^ 2 * s.damp_coefficient m ^ 2 / (4 * stepA s m h) := by
      rw [le_div_iff₀ (by linarith : (0 : ℝ) < 4 * stepA s m h)]
      have := mul_le_mul_of_nonneg_left H2 (sq_nonneg h)
      linarith [this]
    linarith [e3, e4]
  have hstep : ∀ x v : ℝ, 0 ≤ x → v ≤ 0 → h * -v ≤ θ * x →
      (integrate s m h (x, v)).2 ≤ 0 ∧ 0 ≤ (integrate s m h (x, v)).1 ∧
      (integrate s m h (x, v)).1 ≤ x ∧
      h * -(integrate s m h (x, v)).2 ≤ θ * (integrate s m h (x, v)).1 := by
    intro x v hx hv huv
    have hcf := integrate_closed_form s m x v h hm hh hD
    have hx2eq : (integrate s m h (x, v)).1 =
        ((s.damp_coefficient m + h * s.stiffness m + m) * x - h ^ 2 * s.stiffness m * x
          + h * (s.damp_coefficient m + h * s.stiffness m + m
            - h * (s.damp_coefficient m + h * s.stiffness m)) * v)
          / (s.damp_coefficient m + h * s.stiffness m + m) := by
      rw [hcf]; rfl
    have hv2eq : (integrate s m h (x, v)).2 =
        ((s.damp_coefficient m + h * s.stiffness m + m
          - h * (s.damp_coefficient m + h * s.stiffness m)) * v - h * s.stiffness m * x)
          / (s.damp_coefficient m + h * s.stiffness m + m) := by
      rw [hcf]; rfl
    exact invariant_step (s.stiffness m) (s.damp_coefficient m) m h θ x v
      (integrate s m h (x, v)).1 (integrate s m h (x, v)).2
      hk hcd hm hh (by rw [← hArfl]; exact hA.le) hθ0 hθ1 hcond hx hv huv hx2eq hv2eq
  have hinv : ∀ n, 0 ≤ (traj s m h x0 n).1 ∧ (traj s m h x0 n).2 ≤ 0 ∧
      h * -(traj s m h x0 n).2 ≤ θ * (traj s m h x0 n).1 := by
    intro n
    induction n with
    | zero =>
      refine ⟨hx0, le_refl 0, ?_⟩
      simpa [traj] using mul_nonneg hθ0.le hx0
    | succ n ih =>
      have hn1 : traj s m h x0 (n + 1) =
          integrate s m h ((traj s m h x0 n).1, (traj s m h x0 n).2) := rfl
      obtain ⟨c1, c2, _c3, c4⟩ := hstep (traj s m h x0 n).1 (traj s m h x0 n).2
        ih.1 ih.2.1 ih.2.2
      rw [hn1]
      exact ⟨c2, c1, c4⟩
  intro n
  refine ⟨(hinv n).1, ?_⟩
  obtain ⟨_, _, c3, _⟩ := hstep (traj s m h x0 n).1 (traj s m h x0 n).2
    (hinv n).1 (hinv n).2.1 (hinv n).2.2
  have hn1 : traj s m h x0 (n + 1) =
      integrate s m h ((traj s m h x0 n).1, (traj s m h x0 n).2) := rfl
  rw [hn1]
  exact c3

/-- One integration step commutes with negating the state: the step map
is linear in (position, velocity) since the spring coefficients do not
depend on the state. -/
theorem integrate_neg (s : Spring) (m h x v : ℝ) :
    integrate s m h (-x, -v) =
      (-(integrate s m h (x, v)).1, -(integrate s m h (x, v)).2) := by
  simp only [integrate, Spring.soft_constraint, Prod.mk.injEq]
  constructor
  · ring
  · ring

/-- The trajectory from the negated initial displacement is the negated
trajectory. -/
theorem traj_neg (s : Spring) (m h x0 : ℝ) :
    ∀ n, traj s m h (-x0) n = (-(traj s m h x0 n).1, -(traj s m h x0 n).2) := by
  intro n
  induction n with
  | zero => simp [traj]
  | succ n ih =>
    have h1 : traj s m h (-x0) (n + 1) = integrate s m h (traj s m h (-x0) n) := rfl
    have h2 : traj s m h x0 (n + 1) =
        integrate s m h ((traj s m h x0 n).1, (traj s m h x0 n).2) := rfl
    rw [h1, ih, h2, integrate_neg]

/-- Claim C3 (amended): for every mass m > 0, frequency f > 0,
damp_ratio >= 1 and timestep h > 0 such that the discrete iteration is
itself over-damped - h*c <= 2*A and 4*A*k <= c^2, where k is the
stiffness, c the damping coefficient and A = (c+h*k) + m - h*(c+h*k) -
iterating soft_constraint followed by explicit integration from any
initial displacement and zero relative velocity yields a displacement
sequence that moves monotonically toward zero (its absolute value never
increases) and never changes sign (every term has the sign of the
initial displacement). -/
theorem soft_constraint_iteration_monotone (s : Spring) (m h x0 : ℝ)
    (hm : 0 < m) (hf : 0 < s.frequency) (hz : 1 ≤ s.damp_ratio) (hh : 0 < h)
    (H1 : h * s.damp_coefficient m ≤ 2 * stepA s m h)
    (H2 : 4 * stepA s m h * s.stiffness m ≤ s.damp_coefficient m ^ 2) :
    ∀ n, |(traj s m h x0 (n + 1)).1| ≤ |(traj s m h x0 n).1| ∧
      0 ≤ (traj s m h x0 n).1 * x0 := by
  intro n
  rcases le_or_lt 0 x0 with hx0 | hx0
  · obtain ⟨g1, g2⟩ := iteration_monotone_of_nonneg s m h x0 hm hf hz hh hx0 H1 H2 n
    obtain ⟨g1s, _⟩ := iteration_monotone_of_nonneg s m h x0 hm hf hz hh hx0 H1 H2 (n + 1)
    constructor
    · rw [abs_of_nonneg g1s, abs_of_nonneg g1]
      exact g2
    · exact mul_nonneg g1 hx0
  · have hy0 : 0 ≤ -x0 := by linarith
    have key : ∀ j, traj s m h x0 j =
        (-(traj s m h (-x0) j).1, -(traj s m h (-x0) j).2) := by
      intro j
      have := traj_neg s m h (-x0) j
      rw [neg_neg] at this
      exact this
    obtain ⟨g1, g2⟩ := iteration_monotone_of_nonneg s m h (-x0) hm hf hz hh hy0 H1 H2 n
    obtain ⟨g1s, _⟩ := iteration_monotone_of_nonneg s m h (-x0) hm hf hz hh hy0 H1 H2 (n + 1)
    constructor
    · rw [key (n + 1), key n]
      simp only
      rw [abs_neg, abs_neg, abs_of_nonneg g1s, abs_of_nonneg g1]
      exact g2
    · rw [key n]
      simp only
      have := mul_nonneg g1 hy0
      linarith [this]

/-- Witness for the amended C3 at mass 1, frequency 1, damp_ratio 1 and
timestep 1: all the hypotheses hold, the absolute displacement does not
grow from step 3 to step 4 and the displacement at step 3 has the sign
of the initial displacement. -/
theorem soft_constraint_iteration_monotone_witness :
    ((0 : ℝ) < 1 ∧ 0 < (⟨1, 1⟩ : Spring).frequency ∧ 1 ≤ (⟨1, 1⟩ : Spring).damp_ratio ∧
      (0 : ℝ) < 1 ∧
      1 * (⟨1, 1⟩ : Spring).damp_coefficient 1 ≤ 2 * stepA ⟨1, 1⟩ 1 1 ∧
      4 * stepA ⟨1, 1⟩ 1 1 * (⟨1, 1⟩ : Spring).stiffness 1 ≤
        (⟨1, 1⟩ : Spring).damp_coefficient 1 ^ 2) ∧
    (|(traj ⟨1, 1⟩ 1 1 1 (3 + 1)).1| ≤ |(traj ⟨1, 1⟩ 1 1 1 3).1| ∧
      0 ≤ (traj ⟨1, 1⟩ 1 1 1 3).1 * 1) := by
  have hstiff : (⟨1, 1⟩ : Spring).stiffness 1 = 1 := by
    simp [Spring.stiffness]
  have hcoef : (⟨1, 1⟩ : Spring).damp_coefficient 1 = 2 := by
    simp [Spring.damp_coefficient, Spring.critical_damping_point, Spring.stiffness]
    norm_num
  have hA : stepA ⟨1, 1⟩ 1 1 = 1 := by
    simp [stepA, stepS, softDen, hcoef, hstiff]
  refine ⟨⟨by norm_num, by norm_num, by norm_num, by norm_num, ?_, ?_⟩, ?_⟩
  · rw [hcoef, hA]; norm_num
  · rw [hstiff, hcoef, hA]; norm_num
  · exact soft_constraint_iteration_monotone ⟨1, 1⟩ 1 1 1 (by norm_num) (by norm_num)
      (by norm_num) (by norm_num)
      (by rw [hcoef, hA]; norm_num) (by rw [hstiff, hcoef, hA]; norm_num) 3

/-- Claim C3 is refuted at mass 1, frequency 1, damp_ratio 1, dt 3,
initial displacement 1 and zero velocity: after a single step the
displacement is -1/2, so the sequence changes sign. -/
theorem soft_constraint_iteration_sign_flip :
    0 < (traj ⟨1, 1⟩ 1 3 1 0).1 ∧ (traj ⟨1, 1⟩ 1 3 1 1).1 < 0 := by
  constructor
  · norm_num [traj]
  · norm_num [traj, integrate, Spring.soft_constraint, Spring.damp_coefficient,
      Spring.critical_damping_point, Spring.stiffness]

/-- Three-component real vector, modelling glam Vec3. -/
@[ext]
structure Vec3 where
  x : ℝ
  y : ℝ
  z : ℝ

namespace Vec3

/-- The zero vector. -/
def zero : Vec3 := ⟨0, 0, 0⟩

/-- Componentwise addition. -/
def add (a b : Vec3) : Vec3 := ⟨a.x + b.x, a.y + b.y, a.z + b.z⟩

/-- Multiplication by a scalar on the right (glam Vec3 * f32). -/
def scale (v : Vec3) (t : ℝ) : Vec3 := ⟨v.x * t, v.y * t, v.z * t⟩

/-- Dot product. -/
def dot (a b : Vec3) : ℝ := a.x * b.x + a.y * b.y + a.z * b.z

/-- glam length_squared: the dot product with itself. -/
def length_squared (v : Vec3) : ℝ := v.dot v

/-- glam length: square root of length_squared. -/
def length (v : Vec3) : ℝ := Real.sqrt v.length_squared

/-- glam normalize: self * self.length().recip(). -/
def normalize (v : Vec3) : Vec3 := v.scale v.length⁻¹

/-- glam project_onto: rhs * self.dot(rhs) * rhs.length_squared().recip(). -/
def project_onto (v rhs : Vec3) : Vec3 :=
  (rhs.scale (v.dot rhs)).scale (rhs.length_squared)⁻¹

/-- f32 signum on non-NaN inputs: 1 for nonnegative (the real zero plays
the role of +0.0), -1 for negative. -/
def signum (t : ℝ) : ℝ := if t < 0 then -1 else 1

/-- glam any_orthonormal_pair (the Pixar orthonormal-basis construction);
the receiver is assumed normalized. -/
def any_orthonormal_pair (v : Vec3) : Vec3 × Vec3 :=
  let sign := signum v.z
  let a := -1 / (sign + v.z)
  let b := v.x * v.y * a
  (⟨1 + sign * v.x * v.x * a, sign * b, -sign * v.x⟩,
    ⟨b, sign + v.y * v.y * a, -v.y⟩)

theorem dot_add_left (a b c : Vec3) : (a.add b).dot c = a.dot c + b.dot c := by
  simp only [dot, add]; ring

theorem dot_scale_left (a b : Vec3) (t : ℝ) : (a.scale t).dot b = t * a.dot b := by
  simp only [dot, scale]; ring

theorem dot_comm (a b : Vec3) : a.dot b = b.dot a := by
  simp only [dot]; ring

theorem scale_zero (v : Vec3) : v.scale 0 = zero := by
  simp [scale, zero]

theorem zero_add_zero : zero.add zero = zero := by
  simp [add, zero]

theorem length_squared_pos (v : Vec3) (hv : v ≠ zero) : 0 < v.length_squared := by
  have h0 : 0 ≤ v.length_squared := by
    simp only [length_squared, dot]
    nlinarith [sq_nonneg v.x, sq_nonneg v.y, sq_nonneg v.z]
  rcases eq_or_lt_of_le h0 with h | h
  · exfalso
    apply hv
    have hd : v.x * v.x + v.y * v.y + v.z * v.z = 0 := by
      simpa [length_squared, dot] using h.symm
    have hx : v.x = 0 := by nlinarith [sq_nonneg v.x, sq_nonneg v.y, sq_nonneg v.z]
    have hy : v.y = 0 := by nlinarith [sq_nonneg v.x, sq_nonneg v.y, sq_nonneg v.z]
    have hz : v.z = 0 := by nlinarith [sq_nonneg v.x, sq_nonneg v.y, sq_nonneg v.z]
    exact Vec3.ext hx hy hz
  · exact h

theorem normalize_length_squared (v : Vec3) (hv : v ≠ zero) :
    v.normalize.length_squared = 1 := by
  have hpos := length_squared_pos v hv
  have hne : v.length_squared ≠ 0 := ne_of_gt hpos
  have hsqrt : Real.sqrt v.length_squared ^ 2 = v.length_squared :=
    Real.sq_sqrt (le_of_lt hpos)
  have hsne : Real.sqrt v.length_squared ≠ 0 := by
    intro h0
    rw [h0] at hsqrt
    simp at hsqrt
    exact hne hsqrt.symm
  simp only [normalize, length, length_squared, dot, scale] at *
  field_simp

theorem pair_fst_dot_fst (v : Vec3) (hunit : v.x ^ 2 + v.y ^ 2 + v.z ^ 2 = 1) :
    v.any_orthonormal_pair.1.dot v.any_orthonormal_pair.1 = 1 := by
  simp only [any_orthonormal_pair, signum, dot]
  rcases lt_or_le v.z 0 with hz | hz
  · rw [if_pos hz]
    have hd : (-1 : ℝ) + v.z ≠ 0 := by intro h0; linarith
    field_simp
    linear_combination v.x ^ 2 * hunit
  · rw [if_neg (not_lt.mpr hz)]
    have hd : (1 : ℝ) + v.z ≠ 0 := by intro h0; linarith
    field_simp
    linear_combination v.x ^ 2 * hunit

theorem pair_snd_dot_snd (v : Vec3) (hunit : v.x ^ 2 + v.y ^ 2 + v.z ^ 2 = 1) :
    v.any_orthonormal_pair.2.dot v.any_orthonormal_pair.2 = 1 := by
  simp only [any_orthonormal_pair, signum, dot]
  rcases lt_or_le v.z 0 with hz | hz
  · rw [if_pos hz]
    have hd : (-1 : ℝ) + v.z ≠ 0 := by intro h0; linarith
    field_simp
    linear_combination v.y ^ 2 * hunit
  · rw [if_neg (not_lt.mpr hz)]
    have hd : (1 : ℝ) + v.z ≠ 0 := by intro h0; linarith
    field_simp
    linear_combination v.y ^ 2 * hunit

theorem pair_fst_dot_snd (v : Vec3) (hunit : v.x ^ 2 + v.y ^ 2 + v.z ^ 2 = 1) :
    v.any_orthonormal_pair.1.dot v.any_orthonormal_pair.2 = 0 := by
  simp only [any_orthonormal_pair, signum, dot]
  rcases lt_or_le v.z 0 with hz | hz
  · rw [if_pos hz]
    have hd : (-1 : ℝ) + v.z ≠ 0 := by intro h0; linarith
    field_simp
    linear_combination (-(v.x * v.y) * (v.z - 1) ^ 2) * hunit
  · rw [if_neg (not_lt.mpr hz)]
    have hd : (1 : ℝ) + v.z ≠ 0 := by intro h0; linarith
    field_simp
    linear_combination (v.x * v.y * (1 + v.z) ^ 2) * hunit

theorem self_dot_pair_fst (v : Vec3) (hunit : v.x ^ 2 + v.y ^ 2 + v.z ^ 2 = 1) :
    v.dot v.any_orthonormal_pair.1 = 0 := by
  simp only [any_orthonormal_pair, signum, dot]
  rcases lt_or_le v.z 0 with hz | hz
  · rw [if_pos hz]
    have hd : (-1 : ℝ) + v.z ≠ 0 := by intro h0; linarith
    field_simp
    linear_combination v.x * hunit
  · rw [if_neg (not_lt.mpr hz)]
    have hd : (1 : ℝ) + v.z ≠ 0 := by intro h0; linarith
    field_simp
    linear_combination (-v.x) * hunit

theorem self_dot_pair_snd (v : Vec3) (hunit : v.x ^ 2 + v.y ^ 2 + v.z ^ 2 = 1) :
    v.dot v.any_orthonormal_pair.2 = 0 := by
  simp only [any_orthonormal_pair, signum, dot]
  rcases lt_or_le v.z 0 with hz | hz
  · rw [if_pos hz]
    have hd : (-1 : ℝ) + v.z ≠ 0 := by intro h0; linarith
    field_simp
    linear_combination (v.y * (1 - v.z)) * hunit
  · rw [if_neg (not_lt.mpr hz)]
    have hd : (1 : ℝ) + v.z ≠ 0 := by intro h0; linarith
    field_simp
    linear_combination (-(v.y) * (1 + v.z)) * hunit

end Vec3

/-- Gravity component from src/controller/gravity.rs. -/
structure Gravity where
  acceleration : ℝ
  up_vector : Vec3
  forward_vector : Vec3

/-- The Default impl for Gravity in src/controller/gravity.rs. -/
def Gravity.default : Gravity :=
  { acceleration := -9.817, up_vector := ⟨0, 1, 0⟩, forward_vector := ⟨0, 0, -1⟩ }

/-- Gravity::project from src/controller/gravity.rs: normalize the
up_vector; if the normalized vector has positive length_squared, return
the sum of the projections of the argument onto the orthonormal pair of
the normalized up vector, otherwise return the argument unchanged.  (In
f32 the normalized zero vector is NaN and the comparison NaN > 0 is
false; in the real model the normalized zero vector is zero and 0 > 0 is
false - the same branch is taken.) -/
def Gravity.project (g : Gravity) (other : Vec3) : Vec3 :=
  let up := g.up_vector.normalize
  if up.length_squared > 0 then
    let p := up.any_orthonormal_pair
    (other.project_onto p.1).add (other.project_onto p.2)
  else
    other

/-- With a nonzero up_vector, project takes the then-branch and is the
sum of the dot products against the orthonormal pair. -/
theorem gravity_project_of_ne_zero (g : Gravity) (w : Vec3)
    (hup : g.up_vector ≠ Vec3.zero) :
    g.project w =
      (g.up_vector.normalize.any_orthonormal_pair.1.scale
          (w.dot g.up_vector.normalize.any_orthonormal_pair.1)).add
        (g.up_vector.normalize.any_orthonormal_pair.2.scale
          (w.dot g.up_vector.normalize.any_orthonormal_pair.2)) := by
  have hunit := Vec3.normalize_length_squared g.up_vector hup
  have hpos : g.up_vector.normalize.length_squared > 0 := by rw [hunit]; norm_num
  have hunit' : g.up_vector.normalize.x ^ 2 + g.up_vector.normalize.y ^ 2
      + g.up_vector.normalize.z ^ 2 = 1 := by
    have : g.up_vector.normalize.length_squared = 1 := hunit
    simp only [Vec3.length_squared, Vec3.dot] at this
    nlinarith [this]
  have h1 := Vec3.pair_fst_dot_fst g.up_vector.normalize hunit'
  have h2 := Vec3.pair_snd_dot_snd g.up_vector.normalize hunit'
  rw [Gravity.project]
  simp only [hpos, if_pos]
  simp only [Vec3.project_onto, Vec3.length_squared] at *
  rw [h1, h2]
  simp [Vec3.scale]

/-- Claim C4: for every Gravity with nonzero up_vector, project is
idempotent and annihilates the up direction. -/
theorem gravity_project_idempotent_and_kills_up (g : Gravity) (w : Vec3)
    (hup : g.up_vector ≠ Vec3.zero) :
    g.project (g.project w) = g.project w ∧ g.project g.up_vector = Vec3.zero := by
  have hunit := Vec3.normalize_length_squared g.up_vector hup
  have hunit' : g.up_vector.normalize.x ^ 2 + g.up_vector.normalize.y ^ 2
      + g.up_vector.normalize.z ^ 2 = 1 := by
    simp only [Vec3.length_squared, Vec3.dot] at hunit
    nlinarith [hunit]
  set u := g.up_vector.normalize with hudef
  set X := u.any_orthonormal_pair.1 with hXdef
  set Z := u.any_orthonormal_pair.2 with hZdef
  have hXX := Vec3.pair_fst_dot_fst u hunit'
  have hZZ := Vec3.pair_snd_dot_snd u hunit'
  have hXZ := Vec3.pair_fst_dot_snd u hunit'
  have huX := Vec3.self_dot_pair_fst u hunit'
  have huZ := Vec3.self_dot_pair_snd u hunit'
  have hproj := gravity_project_of_ne_zero g
  constructor
  · rw [hproj w hup, hproj ((X.scale (w.dot X)).add (Z.scale (w.dot Z))) hup]
    have hdX : ((X.scale (w.dot X)).add (Z.scale (w.dot Z))).dot X = w.dot X := by
      rw [Vec3.dot_add_left, Vec3.dot_scale_left, Vec3.dot_scale_left, hXX]
      rw [show Z.dot X = X.dot Z from Vec3.dot_comm Z X, hXZ]
      ring
    have hdZ : ((X.scale (w.dot X)).add (Z.scale (w.dot Z))).dot Z = w.dot Z := by
      rw [Vec3.dot_add_left, Vec3.dot_scale_left, Vec3.dot_scale_left, hZZ, hXZ]
      ring
    rw [hdX, hdZ]
  · rw [hproj g.up_vector hup]
    have hlen : g.up_vector.dot X = 0 ∧ g.up_vector.dot Z = 0 := by
      have hpos := Vec3.length_squared_pos g.up_vector hup
      have hsne : Real.sqrt g.up_vector.length_squared ≠ 0 := by
        have := Real.sqrt_pos.mpr hpos
        exact ne_of_gt this
      have hback : g.up_vector = u.scale g.up_vector.length := by
        rw [hudef]
        ext <;> simp only [Vec3.normalize, Vec3.scale, Vec3.length] <;> field_simp
      constructor
      · rw [hback, Vec3.dot_scale_left, huX]; ring
      · rw [hback, Vec3.dot_scale_left, huZ]; ring
    rw [hlen.1, hlen.2, Vec3.scale_zero, Vec3.scale_zero, Vec3.zero_add_zero]

/-- Witness for C4: the default Gravity (up = (0,1,0)) on the vector
(1,2,3). -/
theorem gravity_project_idempotent_and_kills_up_witness :
    Gravity.default.up_vector ≠ Vec3.zero ∧
    (Gravity.default.project (Gravity.default.project ⟨1, 2, 3⟩) =
        Gravity.default.project ⟨1, 2, 3⟩ ∧
      Gravity.default.project Gravity.default.up_vector = Vec3.zero) := by
  have hne : Gravity.default.up_vector ≠ Vec3.zero := by
    simp [Gravity.default, Vec3.zero]
  exact ⟨hne, gravity_project_idempotent_and_kills_up Gravity.default ⟨1, 2, 3⟩ hne⟩

/-- Claim C7: if up_vector has zero length, project is the identity. -/
theorem gravity_project_zero_up_identity (g : Gravity) (w : Vec3)
    (hup : g.up_vector = Vec3.zero) : g.project w = w := by
  rw [Gravity.project, hup]
  have h1 : Vec3.zero.normalize = Vec3.zero := by
    simp [Vec3.normalize, Vec3.scale, Vec3.zero]
  rw [h1]
  have h2 : ¬ (Vec3.zero.length_squared > 0) := by
    simp [Vec3.length_squared, Vec3.dot, Vec3.zero]
  simp only [h2, if_neg, if_false]

/-- Witness for C7: a Gravity with zero up_vector leaves (1,2,3)
unchanged. -/
theorem gravity_project_zero_up_identity_witness :
    (⟨-9.817, Vec3.zero, ⟨0, 0, -1⟩⟩ : Gravity).up_vector = Vec3.zero ∧
    (⟨-9.817, Vec3.zero, ⟨0, 0, -1⟩⟩ : Gravity).project ⟨1, 2, 3⟩ = ⟨1, 2, 3⟩ :=
  ⟨rfl, gravity_project_zero_up_identity _ ⟨1, 2, 3⟩ rfl⟩

/-- ControllerMass component: the mass read from the physics engine. -/
structure ControllerMass where
  mass : ℝ

/-- GravityForce component from src/controller/gravity.rs. -/
structure GravityForce where
  linear : Vec3

/-- The per-body query item of the gravity_force system: GlobalTransform
translation, GravityForce, Gravity and ControllerMass. -/
structure GravityQueryItem where
  translation : Vec3
  force : GravityForce
  gravity : Gravity
  mass : ControllerMass

/-- The per-body update performed by the gravity_force system in
src/controller/gravity.rs: force.linear = up_vector * mass * acceleration.
(The gizmo ray the system also draws is debug rendering, not body
state.) -/
def gravity_force (b : GravityQueryItem) : GravityQueryItem :=
  { b with force :=
      ⟨(b.gravity.up_vector.scale b.mass.mass).scale b.gravity.acceleration⟩ }

/-- The gravity_force system over all matching bodies, mirroring the
query loop. -/
def gravity_force_system (bs : List GravityQueryItem) : List GravityQueryItem :=
  bs.map gravity_force

/-- Claim C8: for every body processed by gravity_force, the resulting
linear gravity force is up_vector * mass * acceleration, and no other
part of the body state is written. -/
theorem gravity_force_only_linear (b : GravityQueryItem) :
    (gravity_force b).force.linear =
      (b.gravity.up_vector.scale b.mass.mass).scale b.gravity.acceleration ∧
    (gravity_force b).translation = b.translation ∧
    (gravity_force b).gravity = b.gravity ∧
    (gravity_force b).mass = b.mass :=
  ⟨rfl, rfl, rfl, rfl⟩

/-- Entities are identifiers. -/
abbrev Entity := ℕ

/-- Parts component from src/controller/parts.rs: the list of entities
that are a part of this controller. -/
structure Parts where
  parts : List Entity

/-- Iterator chain: every element of the first iterator, then every
element of the second. -/
def iterChain (a b : List Entity) : List Entity := a ++ b

/-- Iterator once: the single given element. -/
def iterOnce (e : Entity) : List Entity := [e]

/-- Parts::parts(controller) from src/controller/parts.rs:
self.parts.iter().copied().chain(std::iter::once(controller)). -/
def Parts.partsAndController (p : Parts) (controller : Entity) : List Entity :=
  iterChain p.parts (iterOnce controller)

/-- Claim C9: the iterator yields exactly the entities of parts in order
followed by the controller entity; in particular it is never empty and
its last element is the controller. -/
theorem parts_iterator_spec (p : Parts) (e : Entity) :
    p.partsAndController e = p.parts ++ [e] ∧
    p.partsAndController e ≠ [] ∧
    (p.partsAndController e).getLast? = some e := by
  refine ⟨rfl, ?_, ?_⟩
  · simp [Parts.partsAndController, iterChain, iterOnce]
  · simp [Parts.partsAndController, iterChain, iterOnce]

/-- Labels for the systems registered by WanderlustPlugin::build in
src/plugins.rs, together with the host physics engine sets.  The twelve
controller systems are registered as one .chain() in the Update
schedule, so each is ordered strictly before the next; the chain carries
.before(PhysicsSet::SyncBackend), and the host engine (rapier) runs its
SyncBackend set before its simulation step, which integrates. -/
inductive SystemLabel where
  | getMassFromRapier
  | getVelocityFromRapier
  | findGround
  | determineGroundedness
  | gravityForce
  | movementForce
  | floatForce
  | uprightForce
  | jumpForce
  | accumulateForces
  | applyForces
  | applyGroundForces
  | physicsSyncBackend
  | physicsStepSimulation
  deriving DecidableEq

/-- Position of each system in the per-tick order: indices 0 to 11
follow the .chain() tuple order of WanderlustPlugin::build; the physics
sets come last because the chain is registered before
PhysicsSet::SyncBackend and the host engine integrates after it. -/
def schedIndex : SystemLabel → ℕ
  | .getMassFromRapier => 0
  | .getVelocityFromRapier => 1
  | .findGround => 2
  | .determineGroundedness => 3
  | .gravityForce => 4
  | .movementForce => 5
  | .floatForce => 6
  | .uprightForce => 7
  | .jumpForce => 8
  | .accumulateForces => 9
  | .applyForces => 10
  | .applyGroundForces => 11
  | .physicsSyncBackend => 12
  | .physicsStepSimulation => 13

/-- a runs strictly before b within the tick. -/
def runsBefore (a b : SystemLabel) : Prop := schedIndex a < schedIndex b

instance (a b : SystemLabel) : Decidable (runsBefore a b) :=
  inferInstanceAs (Decidable (schedIndex a < schedIndex b))

/-- The five force contributors of the chain. -/
def forceContributors : List SystemLabel :=
  [.gravityForce, .movementForce, .floatForce, .uprightForce, .jumpForce]

/-- The twelve systems registered by the plugin chain, in order. -/
def wanderlustSystems : List SystemLabel :=
  [.getMassFromRapier, .getVelocityFromRapier, .findGround, .determineGroundedness,
    .gravityForce, .movementForce, .floatForce, .uprightForce, .jumpForce,
    .accumulateForces, .applyForces, .applyGroundForces]

/-- Claim C6: the ground probe runs before every force contributor, all
contributors run before force accumulation, accumulation runs before
force application (both the body force applier and the ground reaction
applier), the whole chain runs before the host engine integration, and
the applier never runs before a contributor of the same tick. -/
theorem schedule_ordering :
    (∀ c ∈ forceContributors, runsBefore .findGround c) ∧
    (∀ c ∈ forceContributors, runsBefore .determineGroundedness c) ∧
    (∀ c ∈ forceContributors, runsBefore c .accumulateForces) ∧
    (runsBefore .accumulateForces .applyForces ∧
      runsBefore .accumulateForces .applyGroundForces) ∧
    (∀ s ∈ wanderlustSystems, runsBefore s .physicsSyncBackend) ∧
    (∀ s ∈ wanderlustSystems, runsBefore s .physicsStepSimulation) ∧
    (∀ c ∈ forceContributors, ¬ runsBefore .applyForces c) := by
  decide

end

end Wanderlust
